import Mathlib

/-!
Verification of the job-lifecycle core of the `now-utilities` transcription
service (`backend/app/main.py`) against its design specification.

The filesystem is modelled as a `Store` of association lists: the input
directory holds resource blobs keyed by filename, and the output directory
holds the three per-job document kinds (`{base}_status.json`, `{base}.txt`,
`{base}_metadata.json`) keyed by the job base name.  Each route handler of
the source is embedded as a pure function from a `Store` (plus the request
data and an abstract clock value) to a new `Store` and a response; the
background worker `process_transcription` additionally returns the ordered
trace of its filesystem commits.  Timestamps are abstract `Nat` values and
the float durations of the source are carried as integral values, since no
claim depends on their arithmetic.
-/

namespace NowUtilities

/-! ### Decimal rendering of naturals

The naming resolver of the source builds candidate filenames with the
f-string `f"{base_name}_{counter}{extension}"`; its termination rests on the
decimal rendering of `counter` (Lean's `Nat.repr`) being injective, which we
prove here from first principles. -/

/-- Decimal digit characters of `n`, most significant first: a reference
unfolding, by well-founded recursion, of the fuelled `Nat.toDigitsCore` that
underlies `Nat.repr`. -/
def decDigits (n : Nat) : List Char :=
  if h : n / 10 = 0 then [Nat.digitChar (n % 10)]
  else decDigits (n / 10) ++ [Nat.digitChar (n % 10)]
termination_by n
decreasing_by
  exact Nat.div_lt_self (Nat.pos_of_ne_zero (by rintro rfl; exact h rfl)) (by norm_num)

/-! ### A directory as an association list

Each directory of the service (INPUT_DIR blobs, and the three output
document families) is modelled as an association list from name to content,
with at most one live entry per name: `kvPut` overwrites, as writing a file
does, and `kvErase` is `os.remove` guarded by `os.path.exists`. -/

def kvGet {β : Type} (k : String) : List (String × β) → Option β
  | [] => none
  | p :: rest => if p.1 = k then some p.2 else kvGet k rest

def kvErase {β : Type} (k : String) : List (String × β) → List (String × β)
  | [] => []
  | p :: rest => if p.1 = k then kvErase k rest else p :: kvErase k rest

def kvPut {β : Type} (k : String) (v : β) (m : List (String × β)) : List (String × β) :=
  (k, v) :: kvErase k m

/-! ### Naming Resolver (`get_unique_filename`, main.py lines 59-69)

`splitext` embeds `os.path.splitext` for paths without directory
separators: split at the last dot, unless every character before that dot
is itself a dot (CPython behaviour for leading-dot names). -/

def splitext (p : String) : String × String :=
  match p.data.reverse.findIdx? (fun c => c == '.') with
  | none => (p, "")
  | some k =>
    let sepIndex := p.data.length - 1 - k
    if (p.data.take sepIndex).any (fun c => c != '.') then
      (String.mk (p.data.take sepIndex), String.mk (p.data.drop sepIndex))
    else (p, "")

/-- Candidate name of round `c` of the disambiguation loop: the f-string
`f"{base_name}_{counter}{extension}"` of the source. -/
def candName (base ext : String) (c : Nat) : String :=
  base ++ "_" ++ Nat.repr c ++ ext

/-- Body of the `while os.path.exists(...)` loop of `get_unique_filename`.
The loop of the source is unbounded; `fuel` bounds the embedding, and the
fallback returned on exhausted fuel is reached for no input: theorem
`C9_resolver_terminates` shows `existing.length` rounds always suffice to
leave via the checked branch. -/
def uniqueAux (existing : List String) (base ext : String) : Nat → Nat → String
  | c, 0 => candName base ext c
  | c, fuel + 1 =>
    let nf := candName base ext c
    if nf ∈ existing then uniqueAux existing base ext (c + 1) fuel else nf

/-- Embedding of `get_unique_filename`: the set of names already present in
INPUT_DIR is passed explicitly as `existing`. -/
def get_unique_filename (existing : List String) (original : String) : String :=
  let p := splitext original
  if original ∈ existing then uniqueAux existing p.1 p.2 1 existing.length
  else original

/-! ### Data model

Documents mirror the JSON objects the source writes; `Option` fields of
`StatusDoc` record which keys are present in the written JSON, since the
three status shapes (`processing`, `completed`, `error`) carry different
keys and the listing merge (`dict.update`) is key-by-key.  Timestamps
(`datetime.now().isoformat()`, `st_ctime`) are abstract `Nat` clock values,
and the float fields (`language_probability`, `duration`) are carried as
`Int` since no claim computes with them. -/

structure Blob where
  size : Nat
  ctime : Nat
deriving DecidableEq

structure StatusDoc where
  status : String
  started_at : Option Nat := none
  completed_at : Option Nat := none
  processing_time : Option Nat := none
  error : Option String := none
deriving DecidableEq

structure MetadataDoc where
  original_filename : String
  language : String
  language_probability : Int
  duration : Int
  processing_time : Nat
  segments_count : Nat
  transcription_file : String
  completed_at : Nat
deriving DecidableEq

/-- The persistent state of the service: INPUT_DIR blobs keyed by filename,
and the three OUTPUT_DIR document families keyed by job base name
(`{base}_status.json`, `{base}_metadata.json`, `{base}.txt`). -/
structure Store where
  inputs : List (String × Blob)
  statusDocs : List (String × StatusDoc)
  metadataDocs : List (String × MetadataDoc)
  transcripts : List (String × String)
deriving DecidableEq

structure HTTPException where
  status_code : Nat
  detail : String
deriving DecidableEq

/-! ### `POST /upload` (`upload_files`, main.py lines 71-102) -/

structure UploadFile where
  filename : String
  content_type : String
  size : Nat
deriving DecidableEq

structure UploadedInfo where
  filename : String
  original_name : String
  size : Nat
  upload_time : Nat
deriving DecidableEq

def inputNames (s : Store) : List String := s.inputs.map Prod.fst

/-- Python `s.startswith(pre)`, over the character data.  (Lean's own
`String.startsWith` walks byte positions by well-founded recursion, which
the kernel cannot evaluate.) -/
def pyStartsWith (s pre : String) : Bool :=
  pre.data.isPrefixOf s.data

/-- Python `s.strip()`: drop whitespace from both ends. -/
def pyStrip (s : String) : String :=
  String.mk
    (((s.data.dropWhile Char.isWhitespace).reverse.dropWhile Char.isWhitespace).reverse)

/-- Saving one accepted file: resolve a unique name against the current
INPUT_DIR contents and write the blob there (main.py lines 81-88). -/
def saveUpload (s : Store) (t : Nat) (f : UploadFile) : Store :=
  { s with inputs :=
      kvPut (get_unique_filename (inputNames s) f.filename) ⟨f.size, t⟩ s.inputs }

/-- Embedding of `upload_files`: files are processed in order; a non-audio
content type aborts the loop with a 400, leaving the files already saved in
place (the source raises `HTTPException` from inside the loop). -/
def upload_files (s : Store) (t : Nat) :
    List UploadFile → Store × Except HTTPException (List UploadedInfo)
  | [] => (s, Except.ok [])
  | f :: rest =>
    if pyStartsWith f.content_type "audio/" then
      let unique := get_unique_filename (inputNames s) f.filename
      let res := upload_files (saveUpload s t f) t rest
      (res.1, match res.2 with
        | Except.ok infos => Except.ok (⟨unique, f.filename, f.size, t⟩ :: infos)
        | Except.error e => Except.error e)
    else (s, Except.error ⟨400, "Arquivo " ++ f.filename ++ " não é de áudio"⟩)

/-! ### `POST /transcribe/{filename}` (`transcribe_file`, main.py lines 104-155)

The handler is split at its await points into the status read and the
act-on-observation step, so that the interleaving of two concurrent
requests can be expressed; `transcribe_file` itself is their sequential
composition, which is what a single isolated request executes. -/

structure TranscribeResponse where
  message : String
  filename : String
  status : String
deriving DecidableEq

/-- Read step: the `status` field of `{base}_status.json`, if the document
exists (main.py lines 118-126). -/
def tsRead (s : Store) (base : String) : Option String :=
  (kvGet base s.statusDocs).map StatusDoc.status

/-- Act step (main.py lines 128-155): on an observed `"processing"` answer
"already in flight"; otherwise write `status=processing, started_at=now`
and schedule the background task.  The returned `Bool` records whether
`background_tasks.add_task(process_transcription, filename)` ran. -/
def tsAct (s : Store) (filename base : String) (observed : Option String) (t : Nat) :
    Store × TranscribeResponse × Bool :=
  if observed = some "processing" then
    (s, ⟨"Transcrição já em andamento", filename, "processing"⟩, false)
  else
    let sd : StatusDoc := { status := "processing", started_at := some t }
    ({ s with statusDocs := kvPut base sd s.statusDocs },
      ⟨"Transcrição iniciada em background", filename, "processing"⟩, true)

def transcribe_file (s : Store) (filename : String) (t : Nat) :
    Except HTTPException (Store × TranscribeResponse × Bool) :=
  if (kvGet filename s.inputs).isSome then
    let base := (splitext filename).1
    Except.ok (tsAct s filename base (tsRead s base) t)
  else
    Except.error ⟨404, "Arquivo não encontrado"⟩

/-! ### Background worker (`process_transcription`, main.py lines 157-252) -/

structure TranscriptionInfo where
  language : String
  language_probability : Int
  duration : Int
deriving DecidableEq

/-- Outcome of the external engine call `model.transcribe(...)`: the segment
texts and detection info, or the exception it raised. -/
inductive EngineResult where
  | ok (segments : List String) (info : TranscriptionInfo)
  | err (msg : String)
deriving DecidableEq

/-- One filesystem commit of the background worker, in program order. -/
inductive Event where
  | writeTranscript (base : String)
  | writeMetadata (base : String)
  | writeStatus (base : String) (st : String)
  | deleteInput (filename : String)
deriving DecidableEq, BEq

/-- Embedding of `process_transcription`, returning the new store and the
ordered trace of its commits.  The function is total: the source catches
every exception of the engine call and of the output writes (recording an
`error` status) and so never propagates a failure to its caller, who has
long since received the "accepted" response. -/
def process_transcription (s : Store) (filename : String) (engine : EngineResult)
    (t tEnd : Nat) : Store × List Event :=
  let base := (splitext filename).1
  let output_filename := base ++ ".txt"
  if (kvGet filename s.inputs).isSome then
    match engine with
    | EngineResult.ok segments info =>
      let transcription := pyStrip (segments.foldl (fun acc seg => acc ++ seg ++ " ") "")
      let segment_count := segments.length
      let processing_time := tEnd - t
      let s1 : Store := { s with transcripts := kvPut base transcription s.transcripts }
      let md : MetadataDoc :=
        ⟨filename, info.language, info.language_probability, info.duration,
          processing_time, segment_count, output_filename, tEnd⟩
      let s2 : Store := { s1 with metadataDocs := kvPut base md s1.metadataDocs }
      let sd : StatusDoc := { status := "completed", completed_at := some tEnd,
                              processing_time := some processing_time }
      let s3 : Store := { s2 with statusDocs := kvPut base sd s2.statusDocs }
      let s4 : Store := { s3 with inputs := kvErase filename s3.inputs }
      (s4, [Event.writeTranscript base, Event.writeMetadata base,
            Event.writeStatus base "completed", Event.deleteInput filename])
    | EngineResult.err msg =>
      let sd : StatusDoc := { status := "error", completed_at := some tEnd,
                              error := some msg }
      ({ s with statusDocs := kvPut base sd s.statusDocs },
        [Event.writeStatus base "error"])
  else
    let errmsg := "Arquivo de origem não encontrado durante processamento: " ++ filename
    let sd : StatusDoc := { status := "error", completed_at := some tEnd,
                            error := some errmsg }
    ({ s with statusDocs := kvPut base sd s.statusDocs },
      [Event.writeStatus base "error"])

/-! ### `GET /files` (`list_files`, main.py lines 254-344)

The handler scans INPUT_DIR (one `uploaded` entry per blob) and OUTPUT_DIR,
grouping output files by base name into a per-base dictionary built with
`dict.update`.  Within one base the sorted directory order is
`{base}.txt` < `{base}_metadata.json` < `{base}_status.json` (`.` < `_` and
`metadata` < `status`), so the transcript is folded in first, then the
metadata document, then the status document; `mergeInfo` applies the three
updates in exactly that order.  Directory enumeration order across distinct
names is abstracted as store order, which no claim observes. -/

structure FileInfo where
  statusField : Option String := none
  started_at : Option Nat := none
  completed_at : Option Nat := none
  processing_time : Option Nat := none
  error : Option String := none
  original_filename : Option String := none
  language : Option String := none
  duration : Option Int := none
  transcription_file : Option String := none
deriving DecidableEq

/-- Key-by-key `dict.update` on one optional field: a key present in the
update overwrites, an absent key keeps the old value. -/
def updField {α : Type} (new old : Option α) : Option α :=
  match new with
  | some v => some v
  | none => old

/-- Python truthiness of `file_info.get("transcription_file")`: a missing
key and the empty string are both falsy. -/
def truthyStr : Option String → Bool
  | some v => v != ""
  | none => false

def mergeInfo (s : Store) (b : String) : FileInfo :=
  let i0 : FileInfo := {}
  let i1 := match kvGet b s.transcripts with
    | some _ => { i0 with transcription_file := some (b ++ ".txt") }
    | none => i0
  let i2 := match kvGet b s.metadataDocs with
    | some md => { i1 with
        original_filename := some md.original_filename,
        language := some md.language,
        duration := some md.duration,
        processing_time := some md.processing_time,
        completed_at := some md.completed_at,
        transcription_file := some md.transcription_file }
    | none => i1
  match kvGet b s.statusDocs with
  | some sd => { i2 with
      statusField := some sd.status,
      started_at := updField sd.started_at i2.started_at,
      completed_at := updField sd.completed_at i2.completed_at,
      processing_time := updField sd.processing_time i2.processing_time,
      error := updField sd.error i2.error }
  | none => i2

structure ListEntry where
  type : String
  filename : String
  original_name : String
  status : String
  size : Option Nat := none
  upload_time : Option Nat := none
  started_at : Option Nat := none
  completed_at : Option Nat := none
  processing_time : Option Nat := none
  language : Option String := none
  duration : Option Int := none
  error : Option String := none
  transcription_file : Option String := none
deriving DecidableEq

def inputEntry (p : String × Blob) : ListEntry :=
  { type := "input", filename := p.1, original_name := p.1, status := "uploaded",
    size := some p.2.size, upload_time := some p.2.ctime }

/-- Final status determination and output row for one processed base
(main.py lines 321-341): a `status` key from the status document is
authoritative; with no status key, a truthy `transcription_file` means
`completed`, otherwise `processing`. -/
def entryFor (s : Store) (b : String) : ListEntry :=
  let fi := mergeInfo s b
  let st0 := match fi.statusField with
    | some st => st
    | none => "unknown"
  let status := if st0 = "unknown" then
      (if truthyStr fi.transcription_file then "completed" else "processing")
    else st0
  { type := "processed", filename := b,
    original_name := match fi.original_filename with | some o => o | none => b,
    status := status,
    started_at := fi.started_at,
    completed_at := fi.completed_at,
    processing_time := fi.processing_time,
    language := fi.language,
    duration := fi.duration,
    error := if status = "error" then fi.error else none,
    transcription_file := fi.transcription_file }

def processedBases (s : Store) : List String :=
  (s.statusDocs.map Prod.fst ++ s.transcripts.map Prod.fst ++
    s.metadataDocs.map Prod.fst).dedup

def list_files (s : Store) : List ListEntry :=
  s.inputs.map inputEntry ++ (processedBases s).map (entryFor s)

/-! ### `DELETE /files/{filename}` (`delete_file`, main.py lines 362-383) -/

def delete_file (s : Store) (filename : String) : Store × String :=
  let output_base := (splitext filename).1
  ({ inputs := kvErase filename s.inputs,
     statusDocs := kvErase output_base s.statusDocs,
     metadataDocs := kvErase output_base s.metadataDocs,
     transcripts := kvErase output_base s.transcripts },
   "Arquivo deletado com sucesso")

deriving instance DecidableEq for Except

/-! ### Concrete fixtures used by the counterexamples and witnesses -/

def emptyStore : Store := ⟨[], [], [], []⟩

/-- One uploaded blob `a.wav`, no job documents: the state right after a
fresh upload. -/
def uploadedStore : Store := ⟨[("a.wav", ⟨3, 0⟩)], [], [], []⟩

/-- First concurrent request of the C1 interleaving: reads the (absent)
status document and acts on that observation. -/
def c1StepA : Store × TranscribeResponse × Bool :=
  tsAct uploadedStore "a.wav" (splitext "a.wav").1
    (tsRead uploadedStore (splitext "a.wav").1) 0

/-- Second concurrent request of the C1 interleaving: its status read also
happened against `uploadedStore`, before request A wrote, and its write step
runs after A's. -/
def c1StepB : Store × TranscribeResponse × Bool :=
  tsAct c1StepA.1 "a.wav" (splitext "a.wav").1
    (tsRead uploadedStore (splitext "a.wav").1) 1

/-- Commit trace of one successful background transcription of `a.wav`. -/
def c2Trace : List Event :=
  (process_transcription uploadedStore "a.wav"
    (EngineResult.ok ["hello"] ⟨"en", 1, 10⟩) 2 7).2

/-- A job with only a transcript document: the status write was lost. -/
def transcriptOnlyStore : Store := ⟨[], [], [], [("a", "hello")]⟩

/-- A job with only a metadata document present. -/
def metadataOnlyStore : Store :=
  ⟨[], [], [("a", ⟨"a.wav", "en", 1, 10, 5, 2, "a.txt", 20⟩)], []⟩

/-- An uploaded blob whose previous run completed: status document
`completed`, plus its transcript and metadata. -/
def completedStore : Store :=
  ⟨[("a.wav", ⟨3, 0⟩)],
   [("a", { status := "completed", completed_at := some 9, processing_time := some 4 })],
   [("a", ⟨"a.wav", "en", 1, 10, 4, 1, "a.txt", 9⟩)],
   [("a", "hello")]⟩

/-! ### Supporting lemmas -/

theorem decDigits_eq (n : Nat) :
    decDigits n =
      if n / 10 = 0 then [Nat.digitChar (n % 10)]
      else decDigits (n / 10) ++ [Nat.digitChar (n % 10)] := by
  rw [decDigits]
  by_cases h : n / 10 = 0 <;> simp [h]

theorem decDigits_ne_nil (n : Nat) : decDigits n ≠ [] := by
  rw [decDigits_eq]
  split <;> simp

theorem toDigitsCore_eq_decDigits :
    ∀ (fuel n : Nat) (acc : List Char), n < fuel →
      Nat.toDigitsCore 10 fuel n acc = decDigits n ++ acc := by
  intro fuel
  induction fuel with
  | zero => intro n acc h; exact absurd h (Nat.not_lt_zero n)
  | succ fuel ih =>
    intro n acc h
    by_cases hdiv : n / 10 = 0
    · simp only [Nat.toDigitsCore, hdiv, if_true, reduceIte]
      rw [decDigits_eq, if_pos hdiv]
      rfl
    · have hn : n ≠ 0 := by rintro rfl; exact hdiv rfl
      have hlt : n / 10 < n :=
        Nat.div_lt_self (Nat.pos_of_ne_zero hn) (by norm_num)
      have hfuel : n / 10 < fuel := by omega
      simp only [Nat.toDigitsCore, hdiv, if_false, reduceIte]
      rw [ih (n / 10) (Nat.digitChar (n % 10) :: acc) hfuel,
        decDigits_eq n, if_neg hdiv, List.append_assoc]
      rfl

theorem repr_eq_decDigits (n : Nat) : (Nat.repr n).data = decDigits n := by
  show (Nat.toDigits 10 n).asString.data = decDigits n
  rw [Nat.toDigits, toDigitsCore_eq_decDigits (n + 1) n [] (Nat.lt_succ_self n)]
  simp [List.asString]

theorem digitChar_inj :
    ∀ a < 10, ∀ b < 10, Nat.digitChar a = Nat.digitChar b → a = b := by decide

theorem decDigits_injective (m : Nat) : ∀ n, decDigits m = decDigits n → m = n := by
  induction m using Nat.strong_induction_on with
  | _ m ih =>
    intro n h
    have em := Nat.div_add_mod m 10
    have en := Nat.div_add_mod n 10
    rw [decDigits_eq m, decDigits_eq n] at h
    by_cases hm : m / 10 = 0 <;> by_cases hn : n / 10 = 0
    · rw [if_pos hm, if_pos hn] at h
      have hd : m % 10 = n % 10 :=
        digitChar_inj _ (Nat.mod_lt m (by norm_num)) _ (Nat.mod_lt n (by norm_num))
          (List.cons.inj h).1
      omega
    · rw [if_pos hm, if_neg hn] at h
      have hlen := congrArg List.length h
      simp [decDigits_ne_nil] at hlen
    · rw [if_neg hm, if_pos hn] at h
      have hlen := congrArg List.length h
      simp [decDigits_ne_nil] at hlen
    · rw [if_neg hm, if_neg hn] at h
      obtain ⟨htl, hlast⟩ := List.append_inj' h (by simp)
      have hmlt : m / 10 < m :=
        Nat.div_lt_self (Nat.pos_of_ne_zero (by rintro rfl; exact hm rfl)) (by norm_num)
      have hquot : m / 10 = n / 10 := ih (m / 10) hmlt (n / 10) htl
      have hd : m % 10 = n % 10 :=
        digitChar_inj _ (Nat.mod_lt m (by norm_num)) _ (Nat.mod_lt n (by norm_num))
          (List.cons.inj hlast).1
      omega

theorem repr_injective {m n : Nat} (h : Nat.repr m = Nat.repr n) : m = n := by
  apply decDigits_injective
  rw [← repr_eq_decDigits, ← repr_eq_decDigits, h]

theorem string_data_append (a b : String) : (a ++ b).data = a.data ++ b.data := by
  cases a; cases b; rfl

theorem string_data_inj {a b : String} (h : a.data = b.data) : a = b := by
  cases a; cases b; exact congrArg String.mk h

theorem kvGet_kvErase_self {β : Type} (k : String) (m : List (String × β)) :
    kvGet k (kvErase k m) = none := by
  induction m with
  | nil => rfl
  | cons p rest ih =>
    by_cases h : p.1 = k
    · simpa [kvErase, h] using ih
    · simpa [kvErase, h, kvGet] using ih

theorem kvGet_kvErase_ne {β : Type} {j k : String} (h : j ≠ k) (m : List (String × β)) :
    kvGet j (kvErase k m) = kvGet j m := by
  induction m with
  | nil => rfl
  | cons p rest ih =>
    by_cases hp : p.1 = k
    · have hkj : ¬ (k = j) := fun hc => h hc.symm
      simpa [kvErase, kvGet, hp, hkj] using ih
    · by_cases hj : p.1 = j <;> simp [kvErase, kvGet, hp, hj, h, ih]

theorem kvGet_kvPut_self {β : Type} (k : String) (v : β) (m : List (String × β)) :
    kvGet k (kvPut k v m) = some v := by
  simp [kvPut, kvGet]

theorem kvGet_kvPut_ne {β : Type} {j k : String} (h : j ≠ k) (v : β) (m : List (String × β)) :
    kvGet j (kvPut k v m) = kvGet j m := by
  have : k ≠ j := fun hc => h hc.symm
  simp [kvPut, kvGet, this, kvGet_kvErase_ne h]

theorem kvErase_kvErase {β : Type} (k : String) (m : List (String × β)) :
    kvErase k (kvErase k m) = kvErase k m := by
  induction m with
  | nil => rfl
  | cons p rest ih =>
    by_cases h : p.1 = k <;> simp_all [kvErase]

theorem kvGet_some_mem_keys {β : Type} {k : String} {v : β} :
    ∀ {m : List (String × β)}, kvGet k m = some v → k ∈ m.map Prod.fst := by
  intro m
  induction m with
  | nil => intro h; exact absurd h (by simp [kvGet])
  | cons p rest ih =>
    intro h
    by_cases hp : p.1 = k
    · simp [hp]
    · simp only [kvGet, hp, if_false] at h
      simp [ih h]

theorem candName_injective (base ext : String) :
    Function.Injective (candName base ext) := by
  intro i j h
  have hd := congrArg String.data h
  simp only [candName, string_data_append] at hd
  have h1 := List.append_cancel_right hd
  have h2 := List.append_cancel_left h1
  exact repr_injective (string_data_inj h2)

theorem uniqueAux_mem_of_exhausted (existing : List String) (base ext : String) :
    ∀ (fuel c : Nat), uniqueAux existing base ext c fuel ∈ existing →
      ∀ i, c ≤ i → i ≤ c + fuel → candName base ext i ∈ existing := by
  intro fuel
  induction fuel with
  | zero =>
    intro c h i hci hic
    have : i = c := by omega
    rw [this]
    exact h
  | succ fuel ih =>
    intro c h i hci hic
    by_cases hc : candName base ext c ∈ existing
    · rcases Nat.eq_or_lt_of_le hci with heq | hlt
      · exact heq ▸ hc
      · have hrec : uniqueAux existing base ext (c + 1) fuel ∈ existing := by
          simpa [uniqueAux, hc] using h
        exact ih (c + 1) hrec i hlt (by omega)
    · rw [uniqueAux] at h
      simp only [hc, if_false] at h

theorem uniqueAux_not_mem (existing : List String) (base ext : String) :
    uniqueAux existing base ext 1 existing.length ∉ existing := by
  intro hmem
  have hall := uniqueAux_mem_of_exhausted existing base ext existing.length 1 hmem
  have hsub : (List.range' 1 (existing.length + 1)).map (candName base ext) ⊆ existing := by
    intro x hx
    rcases List.mem_map.mp hx with ⟨i, hi, rfl⟩
    rcases List.mem_range'_1.mp hi with ⟨h1, h2⟩
    exact hall i h1 (by omega)
  have hnd : ((List.range' 1 (existing.length + 1)).map (candName base ext)).Nodup :=
    (List.nodup_range' 1 (existing.length + 1)).map (candName_injective base ext)
  have hle := (List.subperm_of_subset hnd hsub).length_le
  rw [List.length_map, List.length_range'] at hle
  omega

theorem uniqueAux_shape (existing : List String) (base ext : String) :
    ∀ (fuel c : Nat), ∃ i, c ≤ i ∧
      uniqueAux existing base ext c fuel = candName base ext i := by
  intro fuel
  induction fuel with
  | zero => intro c; exact ⟨c, Nat.le_refl c, rfl⟩
  | succ fuel ih =>
    intro c
    by_cases hc : candName base ext c ∈ existing
    · rcases ih (c + 1) with ⟨i, hci, heq⟩
      exact ⟨i, by omega, by simpa [uniqueAux, hc] using heq⟩
    · exact ⟨c, Nat.le_refl c, by simp [uniqueAux, hc]⟩

theorem get_unique_filename_not_mem (existing : List String) (original : String) :
    get_unique_filename existing original ∉ existing := by
  rw [get_unique_filename]
  by_cases h : original ∈ existing
  · simpa [h] using uniqueAux_not_mem existing (splitext original).1 (splitext original).2
  · simp [h]

theorem kvErase_not_mem {β : Type} {k : String} :
    ∀ {m : List (String × β)}, k ∉ m.map Prod.fst → kvErase k m = m := by
  intro m
  induction m with
  | nil => intro _; rfl
  | cons p rest ih =>
    intro h
    have hp : ¬ (p.1 = k) := fun hc => h (by simp [hc])
    have hr : k ∉ rest.map Prod.fst := fun hc => h (by simp [hc])
    simp [kvErase, hp, ih hr]

theorem inputNames_kvPut (s : Store) (k : String) (v : Blob)
    (h : k ∉ inputNames s) :
    inputNames { s with inputs := kvPut k v s.inputs } = k :: inputNames s := by
  simp [inputNames, kvPut, kvErase_not_mem h]

theorem append_txt_ne_empty (b : String) : b ++ ".txt" ≠ "" := by
  intro h
  have hd := congrArg String.data h
  rw [string_data_append] at hd
  exact absurd (List.append_eq_nil.mp hd).2 (by decide)

theorem mergeInfo_statusField (s : Store) (b : String) :
    (mergeInfo s b).statusField = (kvGet b s.statusDocs).map StatusDoc.status := by
  unfold mergeInfo
  cases kvGet b s.statusDocs <;> cases kvGet b s.metadataDocs <;>
    cases kvGet b s.transcripts <;> simp

theorem mergeInfo_transcription_file (s : Store) (b : String) :
    (mergeInfo s b).transcription_file =
      (match kvGet b s.metadataDocs, kvGet b s.transcripts with
        | some md, _ => some md.transcription_file
        | none, some _ => some (b ++ ".txt")
        | none, none => none) := by
  unfold mergeInfo
  cases kvGet b s.statusDocs <;> cases kvGet b s.metadataDocs <;>
    cases kvGet b s.transcripts <;> simp

theorem entryFor_filename (s : Store) (b : String) : (entryFor s b).filename = b := rfl

theorem entryFor_status_of_no_status (s : Store) (b : String)
    (hstatus : kvGet b s.statusDocs = none) :
    (entryFor s b).status =
      (if truthyStr (mergeInfo s b).transcription_file then "completed"
       else "processing") := by
  simp [entryFor, mergeInfo_statusField, hstatus]

theorem mem_processedBases_transcript {s : Store} {b txt : String}
    (h : kvGet b s.transcripts = some txt) : b ∈ processedBases s := by
  have hk := kvGet_some_mem_keys h
  simp [processedBases, List.mem_dedup, List.mem_append, hk]

theorem mem_processedBases_metadata {s : Store} {b : String} {md : MetadataDoc}
    (h : kvGet b s.metadataDocs = some md) : b ∈ processedBases s := by
  have hk := kvGet_some_mem_keys h
  simp [processedBases, List.mem_dedup, List.mem_append, hk]

theorem entryFor_mem_list_files {s : Store} {b : String}
    (h : b ∈ processedBases s) : entryFor s b ∈ list_files s :=
  List.mem_append_right _ (List.mem_map_of_mem (entryFor s) h)

/-- Names assigned by a successful run of the upload loop are pairwise
distinct and all fresh with respect to the starting namespace. -/
theorem upload_names_spec :
    ∀ (files : List UploadFile) (s : Store) (t : Nat)
      (infos : List UploadedInfo),
      (upload_files s t files).2 = Except.ok infos →
      (infos.map UploadedInfo.filename).Nodup ∧
        ∀ x ∈ infos.map UploadedInfo.filename, x ∉ inputNames s := by
  intro files
  induction files with
  | nil =>
    intro s t infos h
    simp only [upload_files] at h
    cases h
    exact ⟨List.nodup_nil, by simp⟩
  | cons f rest ih =>
    intro s t infos h
    by_cases haudio : pyStartsWith f.content_type "audio/" = true
    · simp only [upload_files, haudio, if_true] at h
      rcases hres : (upload_files (saveUpload s t f) t rest).2 with e | infos0
      · rw [hres] at h; cases h
      · rw [hres] at h
        cases h
        have hfresh := get_unique_filename_not_mem (inputNames s) f.filename
        rcases ih (saveUpload s t f) t infos0 hres with ⟨hnd, hfar⟩
        have hnames : inputNames (saveUpload s t f) =
            get_unique_filename (inputNames s) f.filename :: inputNames s :=
          inputNames_kvPut s _ _ hfresh
        rw [hnames] at hfar
        constructor
        · refine List.Nodup.cons ?_ hnd
          intro hmem
          exact (hfar _ hmem) (by simp)
        · intro x hx
          rcases List.mem_cons.mp hx with rfl | hx0
          · exact hfresh
          · exact fun hc => (hfar x hx0) (List.mem_cons_of_mem _ hc)
    · simp [upload_files, haudio] at h

theorem uniqueAux_stable (existing : List String) (base ext : String) :
    ∀ (fuel c : Nat), uniqueAux existing base ext c fuel ∉ existing →
      uniqueAux existing base ext c (fuel + 1) = uniqueAux existing base ext c fuel := by
  intro fuel
  induction fuel with
  | zero =>
    intro c h
    simp only [uniqueAux] at h ⊢
    simp [h]
  | succ fuel ih =>
    intro c h
    by_cases hc : candName base ext c ∈ existing
    · have hh : uniqueAux existing base ext (c + 1) fuel ∉ existing := by
        simp only [uniqueAux] at h
        simp only [hc, if_true] at h
        exact h
      simp only [uniqueAux, hc, if_true]
      exact ih (c + 1) hh
    · simp only [uniqueAux, hc, if_false]

theorem uniqueAux_fuel_add (existing : List String) (base ext : String) :
    ∀ extra : Nat,
      uniqueAux existing base ext 1 (existing.length + extra) =
        uniqueAux existing base ext 1 existing.length := by
  intro extra
  induction extra with
  | zero => rfl
  | succ extra ih =>
    have hnm : uniqueAux existing base ext 1 (existing.length + extra) ∉ existing := by
      rw [ih]; exact uniqueAux_not_mem existing base ext
    calc uniqueAux existing base ext 1 (existing.length + (extra + 1))
        = uniqueAux existing base ext 1 (existing.length + extra + 1) := by
          rw [Nat.add_assoc]
      _ = uniqueAux existing base ext 1 (existing.length + extra) :=
          uniqueAux_stable existing base ext (existing.length + extra) 1 hnm
      _ = uniqueAux existing base ext 1 existing.length := ih

/-! ### The claims -/

/-- C1: the claim demands that of several concurrent `POST /transcribe/{id}`
requests for one id exactly one starts a transcription and the rest answer
"already in flight".  The code checks and writes the status document as two
separate awaited filesystem operations with no atomic check-and-set, so in
the interleaving read-A, read-B, write-A, write-B both coroutines observe
"no status", both write PROCESSING, and both schedule an engine task
(`add_task` flag `true` twice); the last conjunct shows that the same second
request answers "already in flight" (no task scheduled) only if its read
happens after the first request's write.  This refutes the claim on the
code: the spec itself flags the missing compare-and-swap as a required fix. -/
theorem C1_tryStart_race :
    c1StepA.2.2 = true ∧ c1StepB.2.2 = true ∧
    c1StepA.2.1.status = "processing" ∧ c1StepB.2.1.status = "processing" ∧
    (tsAct c1StepA.1 "a.wav" (splitext "a.wav").1
      (tsRead c1StepA.1 (splitext "a.wav").1) 1).2.2 = false := by decide

/-- C9: for every finite set of existing names and every candidate
filename, the disambiguation loop of the Naming Resolver terminates and
returns a name that is not in the existing set: the returned name is fresh,
and `existing.length` loop rounds already suffice — any surplus fuel leaves
the result unchanged, which is exactly the termination of the source's
unbounded `while` loop. -/
theorem C9_resolver_terminates (existing : List String) (original : String) :
    get_unique_filename existing original ∉ existing ∧
    ∀ extra : Nat,
      uniqueAux existing (splitext original).1 (splitext original).2 1
          (existing.length + extra) =
        uniqueAux existing (splitext original).1 (splitext original).2 1
          existing.length :=
  ⟨get_unique_filename_not_mem existing original,
   uniqueAux_fuel_add existing (splitext original).1 (splitext original).2⟩

/-- C4 counterexample: the source disambiguates with an underscore suffix,
not a parenthesised one: uploading `a.wav` over an existing `a.wav`
resolves to `a_1.wav`, not to the `a(1).wav` the claim states. -/
theorem C4_counterexample :
    get_unique_filename ["a.wav"] "a.wav" = "a_1.wav" ∧
    get_unique_filename ["a.wav"] "a.wav" ≠ "a(1).wav" := by decide

/-- C4 (amended): for every candidate name that already exists in the input
namespace the Naming Resolver returns the name with an underscore numeric
disambiguator appended (`name_1`, `name_2`, ...), fresh for the namespace;
the names assigned by any successful upload sequence are pairwise distinct;
and uploading `a.wav` twice yields the ids `a.wav` and `a_1.wav`. -/
theorem C4_resolver_underscore :
    (∀ (existing : List String) (original : String), original ∈ existing →
      ∃ c, 1 ≤ c ∧
        get_unique_filename existing original =
          candName (splitext original).1 (splitext original).2 c ∧
        get_unique_filename existing original ∉ existing) ∧
    (∀ (files : List UploadFile) (s : Store) (t : Nat)
        (infos : List UploadedInfo),
      (upload_files s t files).2 = Except.ok infos →
      (infos.map UploadedInfo.filename).Nodup) ∧
    (upload_files emptyStore 0
        [⟨"a.wav", "audio/wav", 3⟩, ⟨"a.wav", "audio/wav", 4⟩]).2 =
      Except.ok [⟨"a.wav", "a.wav", 3, 0⟩, ⟨"a_1.wav", "a.wav", 4, 0⟩] := by
  refine ⟨?_, ?_, by decide⟩
  · intro existing original hmem
    obtain ⟨c, hc1, heq⟩ :=
      uniqueAux_shape existing (splitext original).1 (splitext original).2
        existing.length 1
    refine ⟨c, hc1, ?_, get_unique_filename_not_mem existing original⟩
    simp only [get_unique_filename, hmem, if_true]
    exact heq
  · intro files s t infos h
    exact (upload_names_spec files s t infos h).1

/-- C4 witness: the amended statement applied at the duplicate upload of
`a.wav` into a namespace already holding `a.wav`. -/
theorem C4_witness :
    ∃ c, 1 ≤ c ∧
      get_unique_filename ["a.wav"] "a.wav" =
        candName (splitext "a.wav").1 (splitext "a.wav").2 c ∧
      get_unique_filename ["a.wav"] "a.wav" ∉ ["a.wav"] :=
  C4_resolver_underscore.1 ["a.wav"] "a.wav" (by decide)

/-- C8: `DELETE /files/{id}` removes the resource blob and all three
document kinds for the id, always answers the success message (also on an
already-absent id), and is idempotent: a second call returns exactly the
same store and response as the first. -/
theorem C8_delete_idempotent (s : Store) (filename : String) :
    kvGet filename (delete_file s filename).1.inputs = none ∧
    kvGet (splitext filename).1 (delete_file s filename).1.statusDocs = none ∧
    kvGet (splitext filename).1 (delete_file s filename).1.metadataDocs = none ∧
    kvGet (splitext filename).1 (delete_file s filename).1.transcripts = none ∧
    (delete_file s filename).2 = "Arquivo deletado com sucesso" ∧
    delete_file (delete_file s filename).1 filename = delete_file s filename := by
  refine ⟨kvGet_kvErase_self _ _, kvGet_kvErase_self _ _, kvGet_kvErase_self _ _,
    kvGet_kvErase_self _ _, rfl, ?_⟩
  simp [delete_file, kvErase_kvErase]

/-- C2 counterexample: on a successful transcription the code commits the
transcript text blob first (main.py line 204) and the metadata document
second (line 220); the claimed order — metadata before transcript — is
false on the concrete successful run recorded in `c2Trace`. -/
theorem C2_counterexample :
    c2Trace = [Event.writeTranscript "a", Event.writeMetadata "a",
               Event.writeStatus "a" "completed", Event.deleteInput "a.wav"] ∧
    ¬ (c2Trace.indexOf (Event.writeMetadata "a") <
        c2Trace.indexOf (Event.writeTranscript "a")) := by decide

/-- C2 (amended): on a successful transcription the orchestrator commits, in
order, (a) the transcript text blob, (b) the metadata document with the
TranscriptResult fields, (c) the status document set to COMPLETED, and only
after all three deletes the original resource blob. -/
theorem C2_commit_order (s : Store) (filename : String) (segments : List String)
    (info : TranscriptionInfo) (t tEnd : Nat) (blob : Blob)
    (h : kvGet filename s.inputs = some blob) :
    (process_transcription s filename (EngineResult.ok segments info) t tEnd).2 =
      [Event.writeTranscript (splitext filename).1,
       Event.writeMetadata (splitext filename).1,
       Event.writeStatus (splitext filename).1 "completed",
       Event.deleteInput filename] ∧
    kvGet filename
        (process_transcription s filename (EngineResult.ok segments info) t tEnd).1.inputs =
      none ∧
    kvGet (splitext filename).1
        (process_transcription s filename (EngineResult.ok segments info) t tEnd).1.transcripts =
      some (pyStrip (segments.foldl (fun acc seg => acc ++ seg ++ " ") "")) ∧
    kvGet (splitext filename).1
        (process_transcription s filename (EngineResult.ok segments info) t tEnd).1.metadataDocs =
      some ⟨filename, info.language, info.language_probability, info.duration,
            tEnd - t, segments.length, (splitext filename).1 ++ ".txt", tEnd⟩ ∧
    kvGet (splitext filename).1
        (process_transcription s filename (EngineResult.ok segments info) t tEnd).1.statusDocs =
      some { status := "completed", completed_at := some tEnd,
             processing_time := some (tEnd - t) } := by
  have hs : (kvGet filename s.inputs).isSome = true := by rw [h]; rfl
  refine ⟨?_, ?_, ?_, ?_, ?_⟩ <;>
    simp [process_transcription, hs, kvGet_kvPut_self, kvGet_kvErase_self]

/-- C2 witness: the amended commit order on a concrete successful run. -/
theorem C2_witness :
    (process_transcription uploadedStore "a.wav"
        (EngineResult.ok ["hello"] ⟨"en", 1, 10⟩) 2 7).2 =
      [Event.writeTranscript (splitext "a.wav").1,
       Event.writeMetadata (splitext "a.wav").1,
       Event.writeStatus (splitext "a.wav").1 "completed",
       Event.deleteInput "a.wav"] ∧
    kvGet "a.wav"
        (process_transcription uploadedStore "a.wav"
          (EngineResult.ok ["hello"] ⟨"en", 1, 10⟩) 2 7).1.inputs =
      none ∧
    kvGet (splitext "a.wav").1
        (process_transcription uploadedStore "a.wav"
          (EngineResult.ok ["hello"] ⟨"en", 1, 10⟩) 2 7).1.transcripts =
      some (pyStrip ((["hello"].foldl (fun acc seg => acc ++ seg ++ " ") ""))) ∧
    kvGet (splitext "a.wav").1
        (process_transcription uploadedStore "a.wav"
          (EngineResult.ok ["hello"] ⟨"en", 1, 10⟩) 2 7).1.metadataDocs =
      some ⟨"a.wav", ("en" : String), (1 : Int), (10 : Int),
            7 - 2, (["hello"] : List String).length, (splitext "a.wav").1 ++ ".txt", 7⟩ ∧
    kvGet (splitext "a.wav").1
        (process_transcription uploadedStore "a.wav"
          (EngineResult.ok ["hello"] ⟨"en", 1, 10⟩) 2 7).1.statusDocs =
      some { status := "completed", completed_at := some 7,
             processing_time := some (7 - 2) } :=
  C2_commit_order uploadedStore "a.wav" ["hello"] ⟨"en", 1, 10⟩ 2 7 ⟨3, 0⟩ (by decide)

/-- C3: for every job id with a transcript document but no status document,
`GET /files` lists the id with status `completed`.  The one side condition
is that any metadata document present for the id carries a non-empty
`transcription_file` field — true of every metadata document this code
writes (always `{base}.txt`), needed because Python's truthiness test on
that field treats an empty string like an absent key. -/
theorem C3_lost_status_completed (s : Store) (b txt : String)
    (hstatus : kvGet b s.statusDocs = none)
    (htxt : kvGet b s.transcripts = some txt)
    (hmd : ∀ md, kvGet b s.metadataDocs = some md → md.transcription_file ≠ "") :
    (entryFor s b).status = "completed" ∧ (entryFor s b).filename = b ∧
      entryFor s b ∈ list_files s := by
  refine ⟨?_, entryFor_filename s b,
    entryFor_mem_list_files (mem_processedBases_transcript htxt)⟩
  rw [entryFor_status_of_no_status s b hstatus]
  have htfm := mergeInfo_transcription_file s b
  rcases hm : kvGet b s.metadataDocs with _ | md
  · rw [hm, htxt] at htfm
    simp only [htfm]
    simp [truthyStr, append_txt_ne_empty b]
  · rw [hm] at htfm
    have hne := hmd md hm
    simp only [htfm]
    simp [truthyStr, hne]

/-- C3 witness: a store holding only the transcript document of job `a`. -/
theorem C3_witness :
    (entryFor transcriptOnlyStore "a").status = "completed" ∧
    (entryFor transcriptOnlyStore "a").filename = "a" ∧
      entryFor transcriptOnlyStore "a" ∈ list_files transcriptOnlyStore :=
  C3_lost_status_completed transcriptOnlyStore "a" "hello" (by decide) (by decide)
    (fun _ h => nomatch h)

/-- C5: when the engine call fails, or the resource has vanished between
scheduling and execution, the worker commits the status document to `error`
with a human-readable message and `completed_at`, leaves INPUT_DIR
untouched (no resource deleted), and — the embedding being a total
function, mirroring the catch-all handlers of the source — never propagates
the failure to the original caller. -/
theorem C5_error_status (s : Store) (filename msg : String) (t tEnd : Nat) :
    (∀ blob, kvGet filename s.inputs = some blob →
      kvGet (splitext filename).1
          (process_transcription s filename (EngineResult.err msg) t tEnd).1.statusDocs =
        some { status := "error", completed_at := some tEnd, error := some msg } ∧
      (process_transcription s filename (EngineResult.err msg) t tEnd).1.inputs =
        s.inputs ∧
      Event.deleteInput filename ∉
        (process_transcription s filename (EngineResult.err msg) t tEnd).2) ∧
    (kvGet filename s.inputs = none → ∀ engine : EngineResult,
      kvGet (splitext filename).1
          (process_transcription s filename engine t tEnd).1.statusDocs =
        some { status := "error", completed_at := some tEnd,
               error := some ("Arquivo de origem não encontrado durante processamento: "
                 ++ filename) } ∧
      (process_transcription s filename engine t tEnd).1.inputs = s.inputs ∧
      Event.deleteInput filename ∉
        (process_transcription s filename engine t tEnd).2) := by
  constructor
  · intro blob h
    have hs : (kvGet filename s.inputs).isSome = true := by rw [h]; rfl
    refine ⟨?_, ?_, ?_⟩ <;> simp [process_transcription, hs, kvGet_kvPut_self]
  · intro h engine
    have hs : (kvGet filename s.inputs).isSome = false := by rw [h]; rfl
    refine ⟨?_, ?_, ?_⟩ <;> simp [process_transcription, hs, kvGet_kvPut_self]

/-- C5 witness: an engine failure over the freshly-uploaded store. -/
theorem C5_witness :
    kvGet (splitext "a.wav").1
        (process_transcription uploadedStore "a.wav"
          (EngineResult.err "boom") 2 7).1.statusDocs =
      some { status := "error", completed_at := some 7, error := some "boom" } ∧
    (process_transcription uploadedStore "a.wav"
        (EngineResult.err "boom") 2 7).1.inputs = uploadedStore.inputs ∧
    Event.deleteInput "a.wav" ∉
      (process_transcription uploadedStore "a.wav"
        (EngineResult.err "boom") 2 7).2 :=
  (C5_error_status uploadedStore "a.wav" "boom" 2 7).1 ⟨3, 0⟩ (by decide)

/-- C6 counterexample: a request holding an audio file followed by a
non-audio file is rejected with a 400 client error, yet the first file's
blob has already been stored — refuting "no state is mutated: no resource
blob is stored for any file of that request". -/
theorem C6_counterexample :
    (upload_files emptyStore 0
        [⟨"a.wav", "audio/wav", 3⟩, ⟨"b.txt", "text/plain", 2⟩]).2 =
      Except.error ⟨400, "Arquivo b.txt não é de áudio"⟩ ∧
    kvGet "a.wav"
        (upload_files emptyStore 0
          [⟨"a.wav", "audio/wav", 3⟩, ⟨"b.txt", "text/plain", 2⟩]).1.inputs =
      some ⟨3, 0⟩ := by decide

/-- C6 (amended): a request containing a non-audio file is rejected with a
400 client error; no blob is stored for the offending file or for any file
after it, but the audio files preceding the first non-audio file have
already been saved and remain stored: the resulting store is exactly the
one after uploading that prefix alone. -/
theorem C6_upload_reject (s : Store) (t : Nat) (pre rest : List UploadFile)
    (f : UploadFile)
    (hpre : ∀ g ∈ pre, pyStartsWith g.content_type "audio/" = true)
    (hf : pyStartsWith f.content_type "audio/" = false) :
    upload_files s t (pre ++ f :: rest) =
      ((upload_files s t pre).1,
        Except.error ⟨400, "Arquivo " ++ f.filename ++ " não é de áudio"⟩) := by
  induction pre generalizing s with
  | nil => simp [upload_files, hf]
  | cons g gs ih =>
    have hg := hpre g (List.mem_cons_self g gs)
    have hrec := ih (saveUpload s t g) (fun x hx => hpre x (List.mem_cons_of_mem g hx))
    simp only [List.cons_append, upload_files, hg, if_true, List.append_eq]
    rw [hrec]

/-- C6 witness: the amended statement at a concrete two-file request. -/
theorem C6_witness :
    upload_files emptyStore 0
        ([⟨"a.wav", "audio/wav", 3⟩] ++ ⟨"b.txt", "text/plain", 2⟩ :: []) =
      ((upload_files emptyStore 0 [⟨"a.wav", "audio/wav", 3⟩]).1,
        Except.error ⟨400, "Arquivo " ++ "b.txt" ++ " não é de áudio"⟩) :=
  C6_upload_reject emptyStore 0 [⟨"a.wav", "audio/wav", 3⟩] []
    ⟨"b.txt", "text/plain", 2⟩ (by decide) (by decide)

/-- C7: `POST /transcribe/{id}` answers 404 exactly when the resource blob
is missing; with the blob present it always answers status `processing`:
when the existing status document says `processing` the store is untouched
and no task is scheduled, and in every other case — including a prior
`completed` or `error` status — the status document is overwritten to
`processing` with a fresh `started_at` and the background task is
scheduled. -/
theorem C7_transcribe_semantics (s : Store) (filename : String) (t : Nat) :
    (kvGet filename s.inputs = none ↔
      transcribe_file s filename t =
        Except.error ⟨404, "Arquivo não encontrado"⟩) ∧
    (∀ blob, kvGet filename s.inputs = some blob →
      ∃ s2 r sched, transcribe_file s filename t = Except.ok (s2, r, sched) ∧
        r.status = "processing" ∧
        (tsRead s (splitext filename).1 = some "processing" →
          s2 = s ∧ sched = false) ∧
        (tsRead s (splitext filename).1 ≠ some "processing" →
          kvGet (splitext filename).1 s2.statusDocs =
            some { status := "processing", started_at := some t } ∧
          sched = true)) := by
  constructor
  · constructor
    · intro h
      have hs : (kvGet filename s.inputs).isSome = false := by rw [h]; rfl
      simp [transcribe_file, hs]
    · intro h
      rcases hk : kvGet filename s.inputs with _ | b
      · rfl
      · have hs : (kvGet filename s.inputs).isSome = true := by rw [hk]; rfl
        simp [transcribe_file, hs] at h
  · intro blob h
    have hs : (kvGet filename s.inputs).isSome = true := by rw [h]; rfl
    by_cases hread : tsRead s (splitext filename).1 = some "processing"
    · refine ⟨s, ⟨"Transcrição já em andamento", filename, "processing"⟩, false,
        ?_, rfl, fun _ => ⟨rfl, rfl⟩, fun hc => absurd hread hc⟩
      simp [transcribe_file, hs, tsAct, hread]
    · refine ⟨(tsAct s filename (splitext filename).1
            (tsRead s (splitext filename).1) t).1,
        (tsAct s filename (splitext filename).1
            (tsRead s (splitext filename).1) t).2.1,
        (tsAct s filename (splitext filename).1
            (tsRead s (splitext filename).1) t).2.2,
        ?_, ?_, ?_, ?_⟩
      · simp [transcribe_file, hs]
      · simp [tsAct, hread]
      · intro hc
        exact absurd hc hread
      · intro hnc
        constructor
        · simp [tsAct, hread, kvGet_kvPut_self]
        · simp [tsAct, hread]

/-- C7 witness: re-entry from a `completed` status on a present blob. -/
theorem C7_witness :
    ∃ s2 r sched, transcribe_file completedStore "a.wav" 11 = Except.ok (s2, r, sched) ∧
      r.status = "processing" ∧
      (tsRead completedStore (splitext "a.wav").1 = some "processing" →
        s2 = completedStore ∧ sched = false) ∧
      (tsRead completedStore (splitext "a.wav").1 ≠ some "processing" →
        kvGet (splitext "a.wav").1 s2.statusDocs =
          some { status := "processing", started_at := some 11 } ∧
        sched = true) :=
  (C7_transcribe_semantics completedStore "a.wav" 11).2 ⟨3, 0⟩ (by decide)

/-- C10 counterexample: for a job id with only a metadata document, the
listing does include the id but reports it as `completed`, not
`processing`: the metadata JSON carries a `transcription_file` key, which
the final-status logic takes as evidence of a finished transcript. -/
theorem C10_counterexample :
    (entryFor metadataOnlyStore "a").status = "completed" ∧
    ¬ ((entryFor metadataOnlyStore "a").status = "processing") ∧
    entryFor metadataOnlyStore "a" ∈ list_files metadataOnlyStore := by decide

/-- C10 (amended): for every job id with only a metadata document (no
status document, no transcript document), `GET /files` still lists the id,
reporting its status as `completed` — the `transcription_file` field
written into every metadata document makes the reconciler treat the job as
finished. -/
theorem C10_metadata_only_completed (s : Store) (b : String) (md : MetadataDoc)
    (hstatus : kvGet b s.statusDocs = none)
    (_htxt : kvGet b s.transcripts = none)
    (hmd : kvGet b s.metadataDocs = some md)
    (htf : md.transcription_file ≠ "") :
    (entryFor s b).status = "completed" ∧ (entryFor s b).filename = b ∧
      entryFor s b ∈ list_files s := by
  refine ⟨?_, entryFor_filename s b,
    entryFor_mem_list_files (mem_processedBases_metadata hmd)⟩
  rw [entryFor_status_of_no_status s b hstatus]
  have htfm := mergeInfo_transcription_file s b
  rw [hmd] at htfm
  simp only [htfm]
  simp [truthyStr, htf]

/-- C10 witness: the amended statement at the metadata-only store. -/
theorem C10_witness :
    (entryFor metadataOnlyStore "a").status = "completed" ∧
    (entryFor metadataOnlyStore "a").filename = "a" ∧
      entryFor metadataOnlyStore "a" ∈ list_files metadataOnlyStore :=
  C10_metadata_only_completed metadataOnlyStore "a"
    ⟨"a.wav", "en", 1, 10, 5, 2, "a.txt", 20⟩ (by decide) (by decide) (by decide)
    (by decide)

end NowUtilities
